import Mathlib

/-!
Verification development for the spreadsheet-container-to-CSV converter
(`convert_to_csv_exports.py`).  The Python source is shallowly embedded:
strings are Lean `String`s manipulated through their character lists,
optional XML sub-elements are `Option`s, the archive is a record of its
parsed parts, and the two Python exception kinds that can escape the
core (`ValueError` for an unresolvable sheet name, `KeyError` for a
missing part) are an explicit error type.  Python-specific primitives
(`int(str)`, negative list indexing, `str.strip`, `re.sub`, the `csv`
module's minimal-quoting writer) are modelled over their ASCII behaviour,
which is the fragment the converter exercises.
-/

set_option maxRecDepth 4000

namespace Ephemeris

/-- ASCII fragment of the whitespace class used by Python `str.strip()`. -/
def pyWs (c : Char) : Bool :=
  c == ' ' || c == '\t' || c == '\n' || c == '\r' || c == '\x0b' || c == '\x0c'

/-- Python `str.strip()` on a character list: drop whitespace at both ends. -/
def stripList (l : List Char) : List Char :=
  ((l.dropWhile pyWs).reverse.dropWhile pyWs).reverse

/-- Python `str.replace(old, new)` for a one-character pattern. -/
def replaceChar (a b : Char) (l : List Char) : List Char :=
  l.map fun c => if c == a then b else c

/-- Source `normalize` (lines 27-30) on a present string:
`value.replace(CR, SP).replace(LF, SP).strip()`. -/
def normalize (s : String) : String :=
  ⟨stripList (replaceChar '\n' ' ' (replaceChar '\r' ' ' s.data))⟩

/-- Source `normalize` including the `None` case (line 28). -/
def normalizeOpt : Option String → String
  | none => ("")
  | some s => normalize s

/-- Numeric value of an ASCII digit. -/
def digitVal (c : Char) : Nat := c.toNat - 48

/-- Decimal digits as accepted by Python `int(str)` after the sign:
digits with single underscores allowed strictly between digits. -/
def digitsVal : Nat → List Char → Option Nat
  | acc, [] => some acc
  | acc, c :: cs =>
    if c.isDigit then digitsVal (acc * 10 + digitVal c) cs
    else if c == '_' then
      match cs with
      | [] => none
      | d :: ds => if d.isDigit then digitsVal (acc * 10 + digitVal d) ds else none
    else none

/-- A nonempty digit group (first character must be a digit). -/
def parseUnsignedDigits : List Char → Option Nat
  | [] => none
  | c :: cs => if c.isDigit then digitsVal (digitVal c) cs else none

/-- Model of Python `int(str)` in base 10 (used at source line 121):
surrounding whitespace is ignored, an optional single sign is allowed,
and `none` models the `ValueError` raised on anything else. -/
def pyInt (s : String) : Option Int :=
  match stripList s.data with
  | '+' :: rest => (parseUnsignedDigits rest).map fun n => (n : Int)
  | '-' :: rest => (parseUnsignedDigits rest).map fun n => -(n : Int)
  | rest => (parseUnsignedDigits rest).map fun n => (n : Int)

/-- Python list subscript `l[i]` for `Int` indexes: nonnegative indexes
count from the front, negative indexes count from the back, and `none`
models the `IndexError` raised outside `[-len, len)`. -/
def pyListGet (l : List String) (i : Int) : Option String :=
  if 0 ≤ i then l.get? i.toNat
  else if -(l.length : Int) ≤ i then l.get? ((l.length : Int) + i).toNat
  else none

/-- ASCII uppercase letter test (the character class of `([A-Z]+)`). -/
def isUpperAZ (c : Char) : Bool := decide ('A' ≤ c) && decide (c ≤ 'Z')

/-- Source `excel_column_index` (lines 33-40): uppercase the reference,
take the leading run of letters (an absent match yields 0), and fold
base-26 digits; the result is the zero-based column index. -/
def excel_column_index (reference : String) : Nat :=
  let letters := (reference.data.map Char.toUpper).takeWhile isUpperAZ
  if letters.isEmpty then 0
  else letters.foldl (fun acc c => acc * 26 + (c.toNat - 64)) 0 - 1

/-- One worksheet cell element `<c>` as consumed by `load_sheet_rows`:
the `r` and `t` attributes, the first `<v>` child together with its text,
and the text of each `<is><t>` descendant in document order. -/
structure CellXml where
  r : Option String
  t : Option String
  v : Option (Option String)
  isTs : List (Option String)
deriving DecidableEq

/-- Python `node.text or ""`. -/
def strOr (o : Option String) : String := o.getD ("")

/-- Source lines 128-129 and 135-137: join the inline `<t>` runs, each
individually stripped of surrounding whitespace. -/
def inlineJoin (ts : List (Option String)) : String :=
  ⟨(ts.map fun o => stripList (strOr o).data).flatten⟩

/-- Source lines 115-137: the raw text resolved for one cell before the
final `normalize` call, following the `if`/`elif` chain on the `t`
attribute.  Every lookup that Python guards (`is not None`, `or` default,
`try`/`except`) is a total `Option` case split here. -/
def cellText (shared : List String) (c : CellXml) : String :=
  if c.t == some ("s") then
    match c.v with
    | some (some txt) =>
      match pyInt txt with
      | some i => (pyListGet shared i).getD txt
      | none => txt
    | _ => ("")
  else if c.t == some ("b") then
    if c.v == some (some ("1")) then ("TRUE") else ("FALSE")
  else if c.t == some ("inlineStr") then
    inlineJoin c.isTs
  else
    match c.v with
    | some (some txt) => txt
    | _ => if c.isTs.isEmpty then ("") else inlineJoin c.isTs

/-- Source lines 113-114: `while len(cells) < index: cells.append("")`. -/
def padTo (cells : List String) (index : Nat) : List String :=
  cells ++ List.replicate (index - cells.length) ("")

/-- Source line 111: `cell.attrib.get("r", "")`. -/
def refOf (c : CellXml) : String := (c.r).getD ("")

/-- Source line 112: decode the explicit reference when present,
otherwise use the next sequential position. -/
def cellIndex (acc : List String) (c : CellXml) : Nat :=
  if (refOf c).data.isEmpty then acc.length else excel_column_index (refOf c)

/-- The cell loop of `load_sheet_rows` (lines 110-138): pad, then append
the normalized cell text. -/
def extractRowGo (shared : List String) : List String → List CellXml → List String
  | acc, [] => acc
  | acc, c :: cs =>
      extractRowGo shared (padTo acc (cellIndex acc c) ++ [normalize (cellText shared c)]) cs

/-- One `<row>` element turned into a list of cell strings. -/
def extractRow (shared : List String) (cells : List CellXml) : List String :=
  extractRowGo shared [] cells

/-- A `<row>` element: its `<c>` children in document order. -/
abbrev RowXml := List CellXml

/-- A worksheet part: its `sheetData/row` elements in document order. -/
abbrev SheetXml := List RowXml

/-- The row loop of `load_sheet_rows` (lines 108-139). -/
def sheet_rows (shared : List String) (sheet : SheetXml) : List (List String) :=
  sheet.map fun r => extractRow shared r

/-- One `<t>` node of a shared-string item, with its
`xml:space="preserve"` marker (lines 53-58). -/
structure TNode where
  text : Option String
  preserve : Bool
deriving DecidableEq

/-- One `<si>` shared-string item: its `<t>` descendants in order. -/
structure SIEntry where
  ts : List TNode
deriving DecidableEq

/-- Lines 54-58: a preserved run contributes its text unmodified,
any other run is stripped before concatenation. -/
def tnodeText (n : TNode) : List Char :=
  if n.preserve then (strOr n.text).data else stripList (strOr n.text).data

/-- Line 59: concatenate the runs and normalize the result. -/
def shared_entry_text (e : SIEntry) : String :=
  normalize ⟨(e.ts.map tnodeText).flatten⟩

/-- One `<Relationship>` element with its `Id` and `Target` attributes. -/
structure Rel where
  relId : Option String
  target : Option String
deriving DecidableEq

/-- One `<sheet>` element with its `name` and `r:id` attributes. -/
structure SheetDecl where
  name : Option String
  relId : Option String
deriving DecidableEq

/-- The archive at the parsed level: the optional shared-string part, the
optional relationship manifest, the `<sheet>` declarations of the (always
read) workbook part, and the worksheet parts by path.  A `none` part
models the `KeyError` branch of `archive.read`. -/
structure Archive where
  sharedStrings : Option (List SIEntry)
  rels : Option (List Rel)
  sheetDecls : List SheetDecl
  parts : List (String × SheetXml)
deriving DecidableEq

/-- Source `load_shared_strings` (lines 43-60): a missing part yields the
empty table, otherwise each item is resolved in order. -/
def load_shared_strings (a : Archive) : List String :=
  match a.sharedStrings with
  | none => []
  | some es => es.map shared_entry_text

/-- Lookup in an insertion-ordered dict model: the last binding wins,
mirroring Python dict overwrite on duplicate keys. -/
def dictGet (l : List (String × String)) (k : String) : Option String :=
  l.foldl (fun acc p => if p.1 == k then some p.2 else acc) none

/-- Source `workbook_relationships` (lines 63-76): a missing manifest
yields the empty mapping; an entry is kept only when both attributes are
present and nonempty (Python truthiness). -/
def workbook_relationships (a : Archive) : List (String × String) :=
  match a.rels with
  | none => []
  | some rels =>
      rels.foldl (fun acc rel =>
        match rel.relId, rel.target with
        | some i, some t =>
            if i.data.isEmpty || t.data.isEmpty then acc else acc ++ [(i, t)]
        | _, _ => acc) []

/-- Python `str.startswith` on character lists. -/
def startsWithChars : List Char → List Char → Bool
  | _, [] => true
  | [], _ :: _ => false
  | c :: cs, p :: ps => c == p && startsWithChars cs ps

/-- Source lines 93-98: normalize a relationship target to a
package-root-relative part path. -/
def resolveTarget (t : String) : String :=
  if startsWithChars t.data ['/'] then ⟨t.data.dropWhile fun c => c == '/'⟩
  else if startsWithChars t.data ['x', 'l', '/'] then t
  else ("xl/") ++ t

/-- The body of the sheet loop (lines 85-99) for one `<sheet>` element,
given the relationship mapping. -/
def sheetStep (rels : List (String × String)) (acc : List (String × String))
    (s : SheetDecl) : List (String × String) :=
  match s.name, s.relId with
  | some n, some rid =>
      if n.data.isEmpty || rid.data.isEmpty then acc
      else
        match dictGet rels rid with
        | none => acc
        | some t => if t.data.isEmpty then acc else acc ++ [(n, resolveTarget t)]
  | _, _ => acc

/-- Source `workbook_sheets` (lines 79-100): sheets with a missing or
empty name or relationship id, or with no manifest entry, are skipped. -/
def workbook_sheets (a : Archive) : List (String × String) :=
  a.sheetDecls.foldl (sheetStep (workbook_relationships a)) []

/-- Characters that force quoting under the `csv` module's minimal
quoting: the delimiter, the quote character, and the characters of the
`\r\n` line terminator configured at source line 145. -/
def csvSpecial (c : Char) : Bool := c == ',' || c == '"' || c == '\r' || c == '\n'

/-- Quote doubling as performed by the writer (`doublequote=True`). -/
def escQuotes : List Char → List Char
  | [] => []
  | c :: cs => if c == '"' then '"' :: '"' :: escQuotes cs else c :: escQuotes cs

/-- One encoded field: quoted (with doubled quotes) exactly when it
contains a special character. -/
def encField (f : List Char) : List Char :=
  if f.any csvSpecial then '"' :: (escQuotes f ++ ['"']) else f

/-- The writer's field loop after the first field: each further field is
preceded by the delimiter. -/
def recAppend : List Char → List (List Char) → List Char
  | acc, [] => acc
  | acc, f :: rest => recAppend (acc ++ ',' :: encField f) rest

/-- The record built by the writer's field loop before the terminator. -/
def recordChars : List (List Char) → List Char
  | [] => []
  | f :: rest => recAppend (encField f) rest

/-- Model of `csv.writer(...).writerow` for one row of strings, mirroring
CPython's `_csv.c`: after the field loop, a nonempty row whose record is
still empty (exactly a single empty field) is written as a quoted empty
field so that the line is not mistaken for an empty record; the
configured `\r\n` terminator always follows. -/
def write_record (row : List String) : List Char :=
  let core := recordChars (row.map String.data)
  (if !row.isEmpty && core.isEmpty then ['"', '"'] else core) ++ ['\r', '\n']

/-- Source `write_csv` (lines 143-147), with the written bytes returned
as the resulting string. -/
def write_csv (rows : List (List String)) : String :=
  ⟨(rows.map write_record).flatten⟩

/-- The safe character class `[A-Za-z0-9_.-]` of source line 159. -/
def safeChar (c : Char) : Bool := c.isAlphanum || c == '_' || c == '.' || c == '-'

/-- The scanner of `re.sub(r"[^A-Za-z0-9_.-]+", "_", s)`: the flag
records whether the previous character was part of an unsafe run, so a
whole run emits a single underscore. -/
def subSafeGo : Bool → List Char → List Char
  | _, [] => []
  | inRun, c :: cs =>
      if safeChar c then c :: subSafeGo false cs
      else if inRun then subSafeGo true cs
      else '_' :: subSafeGo true cs

/-- Python `str.strip("_")`: drop underscores at both ends. -/
def stripUnders (l : List Char) : List Char :=
  ((l.dropWhile fun c => c == '_').reverse.dropWhile fun c => c == '_').reverse

/-- Source line 159: `re.sub(...).strip("_") or "Sheet"`. -/
def safe_sheet_name (s : String) : String :=
  let r := stripUnders (subSafeGo false s.data)
  if r.isEmpty then ("Sheet") else ⟨r⟩

/-- Source line 160: the output file name for one sheet,
`f"{input_path.stem}_{safe_name}.csv"`. -/
def output_file_name (stem name : String) : String :=
  stem ++ ("_") ++ safe_sheet_name name ++ (".csv")

/-- The two exception kinds that can escape the conversion core:
`ValueError` (line 157) and `KeyError` from `archive.read`. -/
inductive PyError where
  | valueError : String → PyError
  | keyError : String → PyError
deriving DecidableEq

/-- A single-quote character as a string. -/
def sq : String := ⟨['\'']⟩

/-- The message of the `ValueError` raised at source line 157. -/
def sheet_not_found_msg (name path : String) : String :=
  ("Sheet ") ++ sq ++ name ++ sq ++ (" not found in ") ++ path

/-- Model of `archive.read` for worksheet parts: first matching name, `KeyError`
when the part is absent. -/
def lookupPart (ps : List (String × SheetXml)) (p : String) : Option SheetXml :=
  (ps.find? fun q => q.1 == p).map fun q => q.2

/-- Source `load_sheet_rows` (lines 103-140) including the part read. -/
def load_sheet_rows (a : Archive) (sheet_path : String) (shared : List String) :
    Except PyError (List (List String)) :=
  match lookupPart a.parts sheet_path with
  | none => Except.error (PyError.keyError sheet_path)
  | some sheet => Except.ok (sheet_rows shared sheet)

/-- The sheet loop of `convert_xlsx_to_csv` (lines 154-161).  The first
component collects the files written (name and CSV bytes) in order; the
second is the exception that aborted the loop, if any.  Writes performed
before the exception are kept, matching files already on disk. -/
def convert_go (a : Archive) (shared : List String) (smap : List (String × String))
    (path stem : String) : List String → List (String × String) × Option PyError
  | [] => ([], none)
  | n :: rest =>
      match dictGet smap n with
      | none => ([], some (PyError.valueError (sheet_not_found_msg n path)))
      | some sp =>
          if sp.data.isEmpty then ([], some (PyError.valueError (sheet_not_found_msg n path)))
          else
            match load_sheet_rows a sp shared with
            | Except.error e => ([], some e)
            | Except.ok rows =>
                let out := convert_go a shared smap path stem rest
                ((output_file_name stem n, write_csv rows) :: out.1, out.2)

/-- Source `convert_xlsx_to_csv` (lines 150-161): build the shared-string
table and the sheet index once, then process the requested names in
order.  `path` is the container path shown in error messages and `stem`
its `Path.stem`. -/
def convert_xlsx_to_csv (a : Archive) (path stem : String) (names : List String) :
    List (String × String) × Option PyError :=
  convert_go a (load_shared_strings a) (workbook_sheets a) path stem names

/-- Whether a requested sheet name fully resolves through the given
sheet index: it is mapped to a nonempty part path and that part exists
in the archive. -/
def resolvable (a : Archive) (smap : List (String × String)) (m : String) : Bool :=
  match dictGet smap m with
  | none => false
  | some sp => !sp.data.isEmpty && (lookupPart a.parts sp).isSome

/-- Text normalization as the spec words it: replace every carriage
return and every line feed with a single space each, then strip
surrounding whitespace; absent input normalizes to the empty string. -/
def spec_normalize : Option String → String
  | none => ("")
  | some s => ⟨stripList (s.data.map fun c => if c == '\r' || c == '\n' then ' ' else c)⟩

/-- A shared-string-typed cell with a present value node, for claims
about lines 117-123. -/
def shared_cell (txt : String) : CellXml := ⟨none, some ("s"), some (some txt), []⟩

/-- Shared-string resolution as the claim words it: the value text is a
numeric index into the zero-based table; an out-of-range or non-numeric
index falls back to the raw literal value text. -/
def shared_lookup_claimed (shared : List String) (txt : String) : String :=
  match pyInt txt with
  | none => txt
  | some i =>
      if 0 ≤ i ∧ i < (shared.length : Int) then (shared.get? i.toNat).getD txt else txt

/-- Quote doubling as the spec words it: each quote character becomes
two, every other character stands alone. -/
def dupQuotes (f : List Char) : List Char :=
  (f.map fun c => if c == '"' then ['"', '"'] else [c]).flatten

/-- A field encoded per the claim: quoted exactly when it contains the
delimiter, a quote character, or a line terminator. -/
def specField (f : List Char) : List Char :=
  if f.any csvSpecial then '"' :: (dupQuotes f ++ ['"']) else f

/-- A record per the claim: the row's own fields in order, separated by
the delimiter. -/
def specRecord : List (List Char) → List Char
  | [] => []
  | [f] => specField f
  | f :: rest => specField f ++ ',' :: specRecord rest

/-- The CSV bytes exactly as claim C6 words them: one record per row,
CRLF after every record including the last. -/
def write_csv_claimed (rows : List (List String)) : String :=
  ⟨(rows.map fun row => specRecord (row.map String.data) ++ ['\r', '\n']).flatten⟩

/-- The CSV bytes with the one amendment the writer forces: a record
consisting of exactly one empty field is written as a quoted empty
field. -/
def write_csv_spec (rows : List (List String)) : String :=
  ⟨(rows.map fun row =>
      (if row = [("")] then ['"', '"'] else specRecord (row.map String.data)) ++
        ['\r', '\n']).flatten⟩

/-- Sanitization as the claim words it: each run of consecutive
characters outside the safe set collapses to a single underscore. -/
def specSubSafe : List Char → List Char
  | [] => []
  | c :: cs =>
      if safeChar c then c :: specSubSafe cs
      else '_' :: specSubSafe (cs.dropWhile fun d => !safeChar d)
termination_by l => l.length
decreasing_by
  all_goals simp
  exact Nat.lt_succ_of_le ((List.dropWhile_sublist _).length_le)

/-- The output name stem per the claim: replace and collapse unsafe
runs, trim underscores, fall back to the fixed label when empty. -/
def safe_sheet_name_spec (s : String) : String :=
  let r := stripUnders (specSubSafe s.data)
  if r.isEmpty then ("Sheet") else ⟨r⟩

/-- A sparse row laid out as the spec's Table invariant demands: each
entry sits at its own column index (counting from `pos`), with skipped
columns as empty-string cells. -/
def sparseFrom : Nat → List (Nat × String) → List String
  | _, [] => []
  | pos, e :: rest => List.replicate (e.1 - pos) ("") ++ e.2 :: sparseFrom (e.1 + 1) rest

/-- Strictly increasing column indexes starting at or after `pos`. -/
def incFromB : Nat → List Nat → Bool
  | _, [] => true
  | pos, i :: rest => decide (pos ≤ i) && incFromB (i + 1) rest

/-- The decoded column index of each cell of a row. -/
def rowIdxs (cells : List CellXml) : List Nat :=
  cells.map fun c => excel_column_index (refOf c)

/-- Every cell of the row carries a nonempty explicit reference. -/
def allExplicit (cells : List CellXml) : Bool :=
  cells.all fun c => !(refOf c).data.isEmpty

/-! Helper lemmas about stripping and normalization. -/

theorem dropWhile_self (p : Char → Bool) (l : List Char) :
    (l.dropWhile p).dropWhile p = l.dropWhile p := by
  induction l with
  | nil => rfl
  | cons c cs ih =>
    by_cases h : p c = true
    · simp [List.dropWhile_cons, h, ih]
    · simp [List.dropWhile_cons, h]

theorem rev_dropWhile_leading (p : Char → Bool) (l : List Char) :
    (l.reverse.dropWhile p).reverse <+: l := by
  obtain ⟨s, hs⟩ := List.dropWhile_suffix (l := l.reverse) p
  exact ⟨s.reverse, by rw [← List.reverse_append, hs, List.reverse_reverse]⟩

theorem dropWhile_eq_self_of_leading {p : Char → Bool} {z y : List Char}
    (hz : z <+: y) (hy : y.dropWhile p = y) : z.dropWhile p = z := by
  cases z with
  | nil => rfl
  | cons c z' =>
    obtain ⟨t, ht⟩ := hz
    have hpc : p c = false := by
      by_contra hc
      have hc' : p c = true := by simpa using hc
      rw [← ht] at hy
      simp [List.dropWhile_cons, hc'] at hy
      have hlen := congrArg List.length hy
      rw [List.length_cons] at hlen
      have hle := (List.dropWhile_sublist (l := z' ++ t) p).length_le
      omega
    simp [List.dropWhile_cons, hpc]

theorem stripList_idem (l : List Char) : stripList (stripList l) = stripList l := by
  have h1 : (l.dropWhile pyWs).dropWhile pyWs = l.dropWhile pyWs := dropWhile_self ..
  have hpre : ((l.dropWhile pyWs).reverse.dropWhile pyWs).reverse <+: l.dropWhile pyWs :=
    rev_dropWhile_leading ..
  have h2 := dropWhile_eq_self_of_leading hpre h1
  unfold stripList
  rw [h2, List.reverse_reverse, dropWhile_self]

theorem stripList_map_comm (f : Char → Char) (hf : ∀ c, pyWs (f c) = pyWs c)
    (l : List Char) : stripList (l.map f) = (stripList l).map f := by
  have hfe : (pyWs ∘ f) = pyWs := funext hf
  unfold stripList
  rw [List.dropWhile_map, hfe, ← List.map_reverse, List.dropWhile_map, hfe,
    ← List.map_reverse]

/-- The combined character substitution performed by `normalize`. -/
def crlfToSpace (c : Char) : Char :=
  if c == '\r' || c == '\n' then ' ' else c

theorem normalize_data (s : String) :
    normalize s = ⟨stripList (s.data.map crlfToSpace)⟩ := by
  have hcomp : ((fun c => if c == '\n' then ' ' else c) ∘
      fun c => if c == '\r' then ' ' else c) = crlfToSpace := by
    funext c
    by_cases h1 : c = '\r'
    · simp [h1, crlfToSpace]
    · by_cases h2 : c = '\n' <;> simp [h1, h2, crlfToSpace]
  unfold normalize replaceChar
  rw [List.map_map, hcomp]

theorem crlf_pyWs (c : Char) : pyWs (crlfToSpace c) = pyWs c := by
  by_cases h1 : c = '\r'
  · simp [h1, crlfToSpace, pyWs]
  · by_cases h2 : c = '\n' <;> simp [h1, h2, crlfToSpace, pyWs]

theorem crlf_idem (c : Char) : crlfToSpace (crlfToSpace c) = crlfToSpace c := by
  by_cases h1 : c = '\r'
  · simp [h1, crlfToSpace]
  · by_cases h2 : c = '\n' <;> simp [h1, h2, crlfToSpace]

theorem normalizeList_idem (l : List Char) :
    stripList ((stripList (l.map crlfToSpace)).map crlfToSpace)
      = stripList (l.map crlfToSpace) := by
  rw [← stripList_map_comm crlfToSpace crlf_pyWs, List.map_map]
  have hc : (crlfToSpace ∘ crlfToSpace) = crlfToSpace := funext crlf_idem
  rw [hc, stripList_idem]

theorem normalize_idem (s : String) : normalize (normalize s) = normalize s := by
  rw [normalize_data s, normalize_data ⟨stripList (s.data.map crlfToSpace)⟩]
  exact congrArg String.mk (normalizeList_idem s.data)

theorem normalize_empty : normalize ("") = ("") := rfl

theorem mem_extractRowGo_normalized (shared : List String) (cells : List CellXml) :
    ∀ acc, (∀ x ∈ acc, normalize x = x) →
      ∀ x ∈ extractRowGo shared acc cells, normalize x = x := by
  induction cells with
  | nil => intro acc hacc x hx; exact hacc x hx
  | cons c cs ih =>
    intro acc hacc x hx
    refine ih _ ?_ x hx
    intro y hy
    rcases List.mem_append.1 hy with h1 | h2
    · simp only [padTo] at h1
      rcases List.mem_append.1 h1 with ha | hr
      · exact hacc y ha
      · rw [List.eq_of_mem_replicate hr]; rfl
    · rw [List.mem_singleton.1 h2]; exact normalize_idem _

/-! Claim C1: shared-string cells. -/

/-- Counterexample to claim C1 as stated: with the three-entry table
`x, y, z`, a value text of `-1` is out of range for a zero-based index,
so the claim demands the literal fallback `-1`; the code instead applies
Python negative indexing and yields the last entry `z`. -/
theorem c1_counterexample :
    cellText [("x"), ("y"), ("z")] (shared_cell ("-1")) = ("z") ∧
    shared_lookup_claimed [("x"), ("y"), ("z")] ("-1") = ("-1") ∧
    ("z") ≠ ("-1") := by decide

/-- Claim C1 (amended): for a shared-string cell with a present value
text, a non-numeric text falls back to the literal; a numeric index in
`[0, len)` yields the entry at that index; an index at or beyond the
table length, or below `-len`, falls back to the literal; and a numeric
index in `[-len, 0)` yields the entry counted from the end (Python
negative indexing).  The extraction is total, so no such index can fail
it. -/
theorem c1_shared_string_resolution (shared : List String) (txt : String) :
    (pyInt txt = none → cellText shared (shared_cell txt) = txt) ∧
    ∀ i : Int, pyInt txt = some i →
      ((0 ≤ i ∧ i < (shared.length : Int)) →
        ∃ entry, shared.get? i.toNat = some entry ∧
          cellText shared (shared_cell txt) = entry) ∧
      (((shared.length : Int) ≤ i ∨ i < -(shared.length : Int)) →
        cellText shared (shared_cell txt) = txt) ∧
      ((-(shared.length : Int) ≤ i ∧ i < 0) →
        ∃ entry, shared.get? ((shared.length : Int) + i).toNat = some entry ∧
          cellText shared (shared_cell txt) = entry) := by
  have hcell : cellText shared (shared_cell txt) =
      match pyInt txt with
      | some i => (pyListGet shared i).getD txt
      | none => txt := rfl
  constructor
  · intro h; rw [hcell, h]
  · intro i hi
    rw [hcell, hi]
    refine ⟨?_, ?_, ?_⟩
    · rintro ⟨h0, hlt⟩
      have hn : i.toNat < shared.length := by omega
      obtain ⟨entry, he⟩ : ∃ e, shared.get? i.toNat = some e :=
        ⟨_, List.get?_eq_get hn⟩
      exact ⟨entry, he, by simp [pyListGet, h0, ← List.get?_eq_getElem?, he]⟩
    · intro h
      rcases h with h | h
      · have h0 : 0 ≤ i := by omega
        have hge : shared.length ≤ i.toNat := by omega
        simp [pyListGet, h0, ← List.get?_eq_getElem?, List.get?_eq_none.2 hge]
      · have h0 : ¬ 0 ≤ i := by omega
        have h1 : ¬ (-(shared.length : Int) ≤ i) := by omega
        simp [pyListGet, h0, h1]
    · rintro ⟨hge, hlt⟩
      have h0 : ¬ 0 ≤ i := by omega
      have hn : ((shared.length : Int) + i).toNat < shared.length := by omega
      obtain ⟨entry, he⟩ : ∃ e, shared.get? ((shared.length : Int) + i).toNat = some e :=
        ⟨_, List.get?_eq_get hn⟩
      exact ⟨entry, he, by simp [pyListGet, h0, hge, ← List.get?_eq_getElem?, he]⟩

/-- Witness for C1 at the concrete table `x, y` and value text `-1`. -/
theorem c1_witness :
    pyInt ("-1") = some (-1) ∧
    ∃ entry, ([("x"), ("y")] : List String).get?
        (((([("x"), ("y")] : List String).length : Int) + -1).toNat) = some entry ∧
      cellText [("x"), ("y")] (shared_cell ("-1")) = entry :=
  ⟨by decide,
    ((c1_shared_string_resolution [("x"), ("y")] ("-1")).2 (-1) (by decide)).2.2
      ⟨by decide, by decide⟩⟩

/-! Claim C2: absent sub-elements. -/

/-- Counterexample to claim C2 as stated: a boolean-typed cell with a
missing value node extracts to `FALSE`, not to the empty string. -/
theorem c2_counterexample :
    cellText [] ⟨none, some ("b"), none, []⟩ = ("FALSE") ∧ ("FALSE") ≠ ("") := by
  decide

/-- Claim C2 (amended): the cell decoder is a total function, so a cell
with no value node and no inline runs is processed without error for
every declared type; it yields the empty string, except that a
boolean-typed cell yields `FALSE` (its missing value node is not `1`). -/
theorem c2_missing_value_node (shared : List String) (r t : Option String) :
    cellText shared ⟨r, t, none, []⟩ = if t = some ("b") then ("FALSE") else ("") := by
  by_cases hs : t = some ("s")
  · simp [cellText, hs]
  · by_cases hb : t = some ("b")
    · simp [cellText, hb]
    · by_cases hi : t = some ("inlineStr")
      · simp [cellText, hs, hb, hi]
        rfl
      · simp [cellText, hs, hb, hi]

/-! Claim C7: text normalization. -/

/-- Claim C7: `normalize` of an absent value is the empty string;
`normalize` of a present string replaces every carriage return and line
feed with one space each and then strips surrounding whitespace (the
spec-side single-pass form); and the normalization is applied to every
extracted cell string and every shared-string entry, so all of them are
fixed points of `normalize`. -/
theorem c7_normalization :
    normalizeOpt none = ("") ∧
    (∀ s, normalize s = spec_normalize (some s)) ∧
    (∀ shared cells, ∀ x ∈ extractRow shared cells, normalize x = x) ∧
    (∀ a : Archive, ∀ e ∈ load_shared_strings a, normalize e = e) := by
  refine ⟨rfl, ?_, ?_, ?_⟩
  · intro s
    rw [normalize_data]
    rfl
  · intro shared cells x hx
    exact mem_extractRowGo_normalized shared cells [] (by simp) x hx
  · intro a e he
    unfold load_shared_strings at he
    cases harc : a.sharedStrings with
    | none => rw [harc] at he; simp at he
    | some es =>
      rw [harc] at he
      obtain ⟨si, _, rfl⟩ := List.mem_map.1 he
      exact normalize_idem _

/-- Witness for C7: a concrete extracted cell and a concrete
shared-string entry are fixed points of `normalize`. -/
theorem c7_witness :
    normalize ("q") = ("q") ∧ normalize ("sh") = ("sh") :=
  ⟨c7_normalization.2.2.1 [] [⟨none, none, some (some ("q")), []⟩] ("q") (by decide),
    c7_normalization.2.2.2 ⟨some [⟨[⟨some ("sh"), false⟩]⟩], none, [], []⟩ ("sh")
      (by decide)⟩

/-! Claim C8: inline-string cells. -/

/-- Counterexample to claim C8 as stated: for inline runs `a ` and `b`
the claim predicts `normalize ("a " ++ "b") = "a b"`, but the code strips
each run before concatenating and yields `ab`. -/
theorem c8_counterexample :
    normalize (cellText []
        ⟨none, some ("inlineStr"), none, [some ("a "), some ("b")]⟩) = ("ab") ∧
    spec_normalize (some (("a ") ++ ("b"))) = ("a b") ∧
    ("ab") ≠ ("a b") := by decide

/-- Claim C8 (amended): for every inline-string-typed cell, the raw cell
text is the concatenation, in document order, of the run contents each
individually stripped of surrounding whitespace; the extracted cell text
is the global normalization of that concatenation. -/
theorem c8_inline_string (shared : List String) (r : Option String)
    (v : Option (Option String)) (ts : List (Option String)) :
    cellText shared ⟨r, some ("inlineStr"), v, ts⟩ =
      ⟨(ts.map fun o => stripList (strOr o).data).flatten⟩ ∧
    normalize (cellText shared ⟨r, some ("inlineStr"), v, ts⟩) =
      normalize ⟨(ts.map fun o => stripList (strOr o).data).flatten⟩ :=
  ⟨rfl, rfl⟩

/-! Claim C5: explicit columns A and D. -/

/-- Claim C5: a row whose two cells carry explicit references at columns
A and D extracts to the 4-wide row `[v_A, "", "", v_D]` (cell values
pass through `normalize` like every extracted cell), and the padding
step extends a row with empty-string cells until its length equals the
decoded zero-based column index whenever that index is not smaller than
the current length. -/
theorem c5_sparse_columns (shared : List String) (a d : String) :
    extractRow shared [⟨some ("A1"), none, some (some a), []⟩,
        ⟨some ("D1"), none, some (some d), []⟩]
      = [normalize a, (""), (""), normalize d] ∧
    ∀ (cs : List String) (i : Nat), cs.length ≤ i → (padTo cs i).length = i := by
  constructor
  · rfl
  · intro cs i h
    simp [padTo]
    omega

/-- Witness for C5 at concrete cell values. -/
theorem c5_witness :
    extractRow [] [⟨some ("A1"), none, some (some ("x")), []⟩,
        ⟨some ("D1"), none, some (some ("w")), []⟩]
      = [normalize ("x"), (""), (""), normalize ("w")] ∧
    (padTo [("x")] 3).length = 3 :=
  ⟨(c5_sparse_columns [] ("x") ("w")).1,
    (c5_sparse_columns [] ("x") ("w")).2 [("x")] 3 (by decide)⟩

/-! Claim C9: sanitized output file names. -/

theorem subSafeGo_spec : ∀ (l : List Char) (b : Bool),
    subSafeGo b l = specSubSafe (if b then l.dropWhile (fun d => !safeChar d) else l) := by
  intro l
  induction l with
  | nil => intro b; cases b <;> simp [subSafeGo, specSubSafe]
  | cons c cs ih =>
    intro b
    by_cases hc : safeChar c = true
    · have h0 := ih false
      simp at h0
      cases b <;> simp [subSafeGo, hc, List.dropWhile_cons, specSubSafe, h0]
    · have hc' : safeChar c = false := by simpa using hc
      have h1 := ih true
      simp at h1
      cases b <;> simp [subSafeGo, hc', List.dropWhile_cons, specSubSafe, h1]

/-- Claim C9: the sanitized sheet name used in the output file name
equals the spec-side description — every maximal run of characters
outside the safe set (alphanumeric, underscore, dot, hyphen) collapses
to a single underscore, leading and trailing underscores are trimmed,
and an empty result falls back to the fixed label `Sheet`; the output
file name is the source stem, an underscore, the sanitized name, and the
`.csv` suffix. -/
theorem c9_output_name_sanitization :
    (∀ s, safe_sheet_name s = safe_sheet_name_spec s) ∧
    ∀ stem name, output_file_name stem name =
      stem ++ ("_") ++ safe_sheet_name_spec name ++ (".csv") := by
  have h : ∀ s, safe_sheet_name s = safe_sheet_name_spec s := by
    intro s
    have hgo := subSafeGo_spec s.data false
    simp at hgo
    unfold safe_sheet_name safe_sheet_name_spec
    rw [hgo]
  exact ⟨h, fun stem name => by unfold output_file_name; rw [h]⟩

/-! Claim C4: row order and ascending column order. -/

theorem extractRowGo_sparse (shared : List String) :
    ∀ (cells : List CellXml) (acc : List String),
      allExplicit cells = true →
      incFromB acc.length (rowIdxs cells) = true →
      extractRowGo shared acc cells =
        acc ++ sparseFrom acc.length
          (cells.map fun c => (excel_column_index (refOf c), normalize (cellText shared c))) := by
  intro cells
  induction cells with
  | nil => intro acc _ _; simp [extractRowGo, sparseFrom]
  | cons c cs ih =>
    intro acc hex hinc
    have hex' : allExplicit cs = true := by
      simp [allExplicit] at hex ⊢
      exact hex.2
    have hrefc : (refOf c).data.isEmpty = false := by
      simp [allExplicit] at hex
      simpa using hex.1
    have hinc' : acc.length ≤ excel_column_index (refOf c) ∧
        incFromB (excel_column_index (refOf c) + 1) (rowIdxs cs) = true := by
      simp [rowIdxs, incFromB] at hinc
      exact hinc
    have hidx : cellIndex acc c = excel_column_index (refOf c) := by
      simp [cellIndex, hrefc]
    have hlen : (padTo acc (excel_column_index (refOf c)) ++
        [normalize (cellText shared c)]).length = excel_column_index (refOf c) + 1 := by
      simp [padTo]
      omega
    show extractRowGo shared
        (padTo acc (cellIndex acc c) ++ [normalize (cellText shared c)]) cs = _
    rw [hidx, ih _ hex' (by rw [hlen]; exact hinc'.2), hlen]
    simp only [List.map_cons, sparseFrom, padTo]
    rw [List.append_assoc, List.append_assoc]
    rfl

/-- Counterexample to claim C4 as stated: a worksheet row whose cells
carry the explicit references `B1` then `A1` (decoded indexes 1 then 0)
extracts to `["", "x", "y"]`: the cell of column index 0 ends up at
position 2, so cells are not in ascending column-index order. -/
theorem c4_counterexample :
    extractRow [] [⟨some ("B1"), none, some (some ("x")), []⟩,
        ⟨some ("A1"), none, some (some ("y")), []⟩] = [(""), ("x"), ("y")] ∧
    excel_column_index ("A1") = 0 ∧
    (extractRow [] [⟨some ("B1"), none, some (some ("x")), []⟩,
        ⟨some ("A1"), none, some (some ("y")), []⟩]).get? 0 ≠ some ("y") := by
  decide

/-- Claim C4 (amended): the extracted table lists one row per source row
element in document order; and within a row, provided every cell carries
an explicit reference and the decoded column indexes are strictly
increasing along the row (the layout the format contracts; the code does
not re-order cells whose references run backwards), the row is exactly
the sparse layout placing each cell at its decoded column index with
skipped columns as empty-string cells, never omitted. -/
theorem c4_row_and_column_order (shared : List String) (sheet : SheetXml)
    (cells : List CellXml) (hex : allExplicit cells = true)
    (hinc : incFromB 0 (rowIdxs cells) = true) :
    ((sheet_rows shared sheet).length = sheet.length ∧
      ∀ k, (sheet_rows shared sheet).get? k = (sheet.get? k).map fun r => extractRow shared r) ∧
    extractRow shared cells =
      sparseFrom 0 (cells.map fun c =>
        (excel_column_index (refOf c), normalize (cellText shared c))) := by
  refine ⟨⟨by simp [sheet_rows], fun k => by simp [sheet_rows, List.get?_map]⟩, ?_⟩
  have h := extractRowGo_sparse shared cells [] hex (by simpa using hinc)
  simpa [extractRow] using h

/-- Witness for C4 at a concrete sheet and a concrete sparse row. -/
theorem c4_witness :
    (sheet_rows [] [[⟨some ("A1"), none, some (some ("x")), []⟩]]).length = 1 ∧
    extractRow [] [⟨some ("A1"), none, some (some ("x")), []⟩,
        ⟨some ("D1"), none, some (some ("w")), []⟩] =
      sparseFrom 0 ([⟨some ("A1"), none, some (some ("x")), []⟩,
          ⟨some ("D1"), none, some (some ("w")), []⟩].map fun c =>
        (excel_column_index (refOf c), normalize (cellText [] c))) :=
  ⟨(c4_row_and_column_order [] [[⟨some ("A1"), none, some (some ("x")), []⟩]]
      [⟨some ("A1"), none, some (some ("x")), []⟩,
        ⟨some ("D1"), none, some (some ("w")), []⟩] (by decide) (by decide)).1.1,
    (c4_row_and_column_order [] [[⟨some ("A1"), none, some (some ("x")), []⟩]]
      [⟨some ("A1"), none, some (some ("x")), []⟩,
        ⟨some ("D1"), none, some (some ("w")), []⟩] (by decide) (by decide)).2⟩

/-! Claim C10: missing relationship manifest. -/

/-- Claim C10: when the archive has no relationship-manifest part, the
relationship mapping is empty, every declared sheet element is skipped
so the sheet index is empty, and any requested sheet extraction fails
with the sheet-not-found `ValueError` (naming the sheet and container),
not with a part-access `KeyError`. -/
theorem c10_missing_relationship_manifest (a : Archive) (h : a.rels = none) :
    workbook_relationships a = [] ∧
    workbook_sheets a = [] ∧
    ∀ path stem n rest,
      convert_xlsx_to_csv a path stem (n :: rest) =
        ([], some (PyError.valueError (sheet_not_found_msg n path))) := by
  have h1 : workbook_relationships a = [] := by
    unfold workbook_relationships
    rw [h]
  have hstep : ∀ (ds : List SheetDecl) (acc : List (String × String)),
      ds.foldl (sheetStep []) acc = acc := by
    intro ds
    induction ds with
    | nil => intro acc; rfl
    | cons d ds' ih =>
      intro acc
      have hone : sheetStep [] acc d = acc := by
        rcases d with ⟨name, rid⟩
        cases name <;> cases rid <;> simp [sheetStep, dictGet]
      show ds'.foldl (sheetStep []) (sheetStep [] acc d) = acc
      rw [hone, ih]
  have h2 : workbook_sheets a = [] := by
    unfold workbook_sheets
    rw [h1, hstep]
  refine ⟨h1, h2, fun path stem n rest => ?_⟩
  unfold convert_xlsx_to_csv
  rw [h2]
  simp [convert_go, dictGet]

/-- Witness for C10 at a concrete archive that declares one sheet but
carries no relationship manifest. -/
theorem c10_witness :
    workbook_sheets (⟨none, none, [⟨some ("Data"), some ("rId1")⟩], []⟩ : Archive) = [] ∧
    convert_xlsx_to_csv (⟨none, none, [⟨some ("Data"), some ("rId1")⟩], []⟩ : Archive)
        ("wb.xlsx") ("wb") [("Data")] =
      ([], some (PyError.valueError (sheet_not_found_msg ("Data") ("wb.xlsx")))) :=
  ⟨(c10_missing_relationship_manifest _ rfl).2.1,
    (c10_missing_relationship_manifest _ rfl).2.2 ("wb.xlsx") ("wb") ("Data") []⟩

/-! Claim C3: requested sheet name not in the index. -/

theorem convert_go_not_found (a : Archive) (shared : List String)
    (smap : List (String × String)) (path stem : String) :
    ∀ (pre : List String) (n : String) (post : List String),
      (∀ m ∈ pre, resolvable a smap m = true) →
      (dictGet smap n = none ∨ dictGet smap n = some ("")) →
      convert_go a shared smap path stem (pre ++ n :: post) =
        ((convert_go a shared smap path stem pre).1,
          some (PyError.valueError (sheet_not_found_msg n path))) := by
  intro pre
  induction pre with
  | nil =>
    intro n post _ hn
    rcases hn with hn | hn <;> simp [convert_go, hn]
  | cons m pre' ih =>
    intro n post hpre hn
    have hm : resolvable a smap m = true := hpre m (by simp)
    have hpre' : ∀ x ∈ pre', resolvable a smap x = true :=
      fun x hx => hpre x (by simp [hx])
    unfold resolvable at hm
    cases hsp : dictGet smap m with
    | none => rw [hsp] at hm; simp at hm
    | some sp =>
      rw [hsp] at hm
      simp at hm
      obtain ⟨hne, hsome⟩ := hm
      obtain ⟨sheet, hsheet⟩ := Option.isSome_iff_exists.1 hsome
      have hload : load_sheet_rows a sp shared = Except.ok (sheet_rows shared sheet) := by
        unfold load_sheet_rows
        rw [hsheet]
      have hne' : sp.data.isEmpty = false := by
        simpa using hne
      show convert_go a shared smap path stem (m :: (pre' ++ n :: post)) = _
      simp only [convert_go, hsp, hne', hload, Bool.false_eq_true, if_false]
      rw [ih n post hpre' hn]

theorem convert_go_files (a : Archive) (shared : List String)
    (smap : List (String × String)) (path stem : String) :
    ∀ pre : List String, (∀ m ∈ pre, resolvable a smap m = true) →
      (convert_go a shared smap path stem pre).1.map Prod.fst =
        pre.map fun m => output_file_name stem m := by
  intro pre
  induction pre with
  | nil => intro _; rfl
  | cons m pre' ih =>
    intro hpre
    have hm : resolvable a smap m = true := hpre m (by simp)
    have hpre' : ∀ x ∈ pre', resolvable a smap x = true :=
      fun x hx => hpre x (by simp [hx])
    unfold resolvable at hm
    cases hsp : dictGet smap m with
    | none => rw [hsp] at hm; simp at hm
    | some sp =>
      rw [hsp] at hm
      simp at hm
      obtain ⟨hne, hsome⟩ := hm
      obtain ⟨sheet, hsheet⟩ := Option.isSome_iff_exists.1 hsome
      have hload : load_sheet_rows a sp shared = Except.ok (sheet_rows shared sheet) := by
        unfold load_sheet_rows
        rw [hsheet]
      have hne' : sp.data.isEmpty = false := by
        simpa using hne
      show ((convert_go a shared smap path stem (m :: pre')).1.map Prod.fst) = _
      simp only [convert_go, hsp, hne', hload, Bool.false_eq_true, if_false]
      simp only [List.map_cons, ih hpre']

/-- Claim C3: when the requested names are a fully-resolvable prefix
`pre`, then a name `n` that the sheet index does not resolve (Python
falsy lookup: absent, or mapped to an empty path), the conversion stops
with the `ValueError` whose message names both the sheet `n` and the
source container `path`; the files written are exactly those of `pre`,
in order, with their derived names — nothing is written for `n` or for
any later requested sheet. -/
theorem c3_sheet_not_found (a : Archive) (path stem : String)
    (pre : List String) (n : String) (post : List String)
    (hpre : ∀ m ∈ pre, resolvable a (workbook_sheets a) m = true)
    (hn : dictGet (workbook_sheets a) n = none ∨
      dictGet (workbook_sheets a) n = some ("")) :
    convert_xlsx_to_csv a path stem (pre ++ n :: post) =
      ((convert_xlsx_to_csv a path stem pre).1,
        some (PyError.valueError (sheet_not_found_msg n path))) ∧
    (convert_xlsx_to_csv a path stem (pre ++ n :: post)).1.map Prod.fst =
      pre.map fun m => output_file_name stem m := by
  have h1 := convert_go_not_found a (load_shared_strings a) (workbook_sheets a)
    path stem pre n post hpre hn
  have h2 := convert_go_files a (load_shared_strings a) (workbook_sheets a)
    path stem pre hpre
  unfold convert_xlsx_to_csv
  rw [h1]
  exact ⟨rfl, h2⟩

/-- Witness for C3: a concrete archive with one resolvable sheet
`Good`; requesting `Good` then `Missing` writes the file for `Good` and
stops with the error naming `Missing` and the container. -/
theorem c3_witness :
    convert_xlsx_to_csv
        (⟨none, some [⟨some ("rId1"), some ("worksheets/sheet1.xml")⟩],
          [⟨some ("Good"), some ("rId1")⟩],
          [(("xl/worksheets/sheet1.xml"),
            [[⟨some ("A1"), none, some (some ("v")), []⟩]])]⟩ : Archive)
        ("wb.xlsx") ("wb") ([("Good")] ++ ("Missing") :: []) =
      ((convert_xlsx_to_csv
        (⟨none, some [⟨some ("rId1"), some ("worksheets/sheet1.xml")⟩],
          [⟨some ("Good"), some ("rId1")⟩],
          [(("xl/worksheets/sheet1.xml"),
            [[⟨some ("A1"), none, some (some ("v")), []⟩]])]⟩ : Archive)
        ("wb.xlsx") ("wb") [("Good")]).1,
        some (PyError.valueError (sheet_not_found_msg ("Missing") ("wb.xlsx")))) ∧
    (convert_xlsx_to_csv
        (⟨none, some [⟨some ("rId1"), some ("worksheets/sheet1.xml")⟩],
          [⟨some ("Good"), some ("rId1")⟩],
          [(("xl/worksheets/sheet1.xml"),
            [[⟨some ("A1"), none, some (some ("v")), []⟩]])]⟩ : Archive)
        ("wb.xlsx") ("wb") ([("Good")] ++ ("Missing") :: [])).1.map Prod.fst =
      [("Good")].map fun m => output_file_name ("wb") m :=
  c3_sheet_not_found _ ("wb.xlsx") ("wb") [("Good")] ("Missing") []
    (by decide) (by decide)

/-! Claim C6: CSV encoding. -/

theorem dupQuotes_cons (c : Char) (cs : List Char) :
    dupQuotes (c :: cs) = (if c == '"' then ['"', '"'] else [c]) ++ dupQuotes cs := rfl

theorem escQuotes_eq_dup : ∀ f : List Char, escQuotes f = dupQuotes f := by
  intro f
  induction f with
  | nil => rfl
  | cons c cs ih =>
    by_cases h : c = '"' <;> simp [escQuotes, dupQuotes_cons, h, ih]

theorem encField_eq_spec (f : List Char) : encField f = specField f := by
  unfold encField specField
  rw [escQuotes_eq_dup]

theorem encField_nil_iff (f : List Char) : encField f = [] ↔ f = [] := by
  constructor
  · intro he
    by_cases h : f.any csvSpecial = true
    · simp [encField, h] at he
    · simpa [encField, h] using he
  · intro he
    subst he
    rfl

theorem specField_nil_iff (f : List Char) : specField f = [] ↔ f = [] := by
  rw [← encField_eq_spec]
  exact encField_nil_iff f

theorem recAppend_eq : ∀ (rest : List (List Char)) (acc : List Char),
    recAppend acc rest = acc ++ (rest.map fun g => ',' :: encField g).flatten := by
  intro rest
  induction rest with
  | nil => intro acc; simp [recAppend]
  | cons f fs ih =>
    intro acc
    simp only [recAppend, List.map_cons, List.flatten_cons]
    rw [ih]
    simp [List.append_assoc]

theorem recordChars_eq_spec : ∀ r : List (List Char), recordChars r = specRecord r := by
  intro r
  induction r with
  | nil => rfl
  | cons f rest ih =>
    cases rest with
    | nil => simp [recordChars, recAppend, specRecord, encField_eq_spec]
    | cons g gs =>
      rw [show recordChars (f :: g :: gs) = recAppend (encField f) (g :: gs) from rfl,
        recAppend_eq]
      rw [show specRecord (f :: g :: gs) = specField f ++ ',' :: specRecord (g :: gs)
        from rfl]
      rw [← ih, show recordChars (g :: gs) = recAppend (encField g) gs from rfl,
        recAppend_eq]
      simp [encField_eq_spec, List.append_assoc]

theorem write_record_eq_spec (row : List String) :
    write_record row =
      (if row = [("")] then ['"', '"'] else specRecord (row.map String.data)) ++
        ['\r', '\n'] := by
  unfold write_record
  rw [show recordChars (row.map String.data) = specRecord (row.map String.data) from
    recordChars_eq_spec _]
  match row with
  | [] => simp [specRecord]
  | [s] =>
    by_cases hs : s = ("")
    · subst hs
      simp [specRecord, specField, csvSpecial]
    · have hd : s.data ≠ [] := by
        intro hnil
        apply hs
        cases s with
        | mk l => simp at hnil; simp [hnil]
      have hne : specField s.data ≠ [] := fun h => hd ((specField_nil_iff _).1 h)
      have hrow : ¬ ([s] = [("")]) := by simp [hs]
      simp only [List.map_cons, List.map_nil, specRecord, if_neg hrow]
      simp [List.isEmpty_iff, hne]
  | s :: t :: rest =>
    have hrow : ¬ (s :: t :: rest = [("")]) := by simp
    simp only [List.map_cons, specRecord, if_neg hrow]
    simp [List.isEmpty_iff]

/-- Counterexample to claim C6 as stated: the quoting rule is not
`exactly when the field contains a special character` — a record of one
empty field is written as `""` (quoted) although the field contains no
delimiter, quote, or terminator, while the claim-side encoder writes a
bare empty record. -/
theorem c6_counterexample :
    write_csv [[("")]] = ("\"\"\r\n") ∧
    write_csv_claimed [[("")]] = ("\r\n") ∧
    write_csv [[("")]] ≠ write_csv_claimed [[("")]] := by decide

/-- Claim C6 (amended): the writer emits one record per row with exactly
the row's own fields in column order, CRLF after every record including
the last, quoting a field exactly when it contains the delimiter, a
quote character, or a line-terminator character — except that a record
consisting of exactly one empty field is written as a quoted empty
field — and doubling embedded quote characters.  In particular
`["x", "y,z"]` encodes to `x,"y,z"\r\n` and the field `He said "hi"`
encodes as `"He said ""hi"""`. -/
theorem c6_csv_encoding :
    (∀ rows, write_csv rows = write_csv_spec rows) ∧
    write_csv [[("x"), ("y,z")]] = ("x,\"y,z\"\r\n") ∧
    (⟨encField ("He said \"hi\"").data⟩ : String) = ("\"He said \"\"hi\"\"\"") := by
  refine ⟨?_, by decide, by decide⟩
  intro rows
  unfold write_csv write_csv_spec
  exact congrArg (fun l => (⟨List.flatten l⟩ : String))
    (List.map_congr_left fun row _ => write_record_eq_spec row)

end Ephemeris
